import Mathlib

/-
Shallow embedding of the filter-directive engine of
src/tracing-subscriber/src/filter/directive.rs.

Pure Rust functions become Lean functions; the `BTreeSet` storage is modelled
as an ascending, comparator-deduplicated list (insertion keeps the existing
element on comparator equality, as `BTreeSet::insert` does); regex matching is
modelled by the leftmost-first semantics of the two anchored alternatives of
`DIRECTIVE_RE` together with `SPAN_PART_RE` and `FIELD_FILTER_RE`.  The regex
character class `\w` is modelled as ASCII alphanumeric or underscore (the
claims only exercise ASCII inputs).  External collaborators that are not part
of src/ (the level module, the field value-predicate module) are modelled from
the spec and are marked as such in their doc comments.
-/

namespace EnvFilter

/-- Verbosity levels of the external level module, totally ordered
OFF < ERROR < WARN < INFO < DEBUG < TRACE per the spec. -/
inductive LevelFilter
  | off
  | error
  | warn
  | info
  | debug
  | trace
deriving DecidableEq, Repr

def LevelFilter.toNat : LevelFilter → Nat
  | .off => 0
  | .error => 1
  | .warn => 2
  | .info => 3
  | .debug => 4
  | .trace => 5

instance : LT LevelFilter := ⟨fun a b => a.toNat < b.toNat⟩

instance : LE LevelFilter := ⟨fun a b => a.toNat ≤ b.toNat⟩

instance (a b : LevelFilter) : Decidable (a < b) :=
  inferInstanceAs (Decidable (a.toNat < b.toNat))

instance (a b : LevelFilter) : Decidable (a ≤ b) :=
  inferInstanceAs (Decidable (a.toNat ≤ b.toNat))

/-- Binary maximum on levels; mirrors Rust `Ord::max`, which returns the
second argument on ties. -/
def LevelFilter.maxl (a b : LevelFilter) : LevelFilter := if a ≤ b then b else a

/-- Maximum of a list of levels; mirrors `Iterator::max` (None on empty). -/
def levelMax? : List LevelFilter → Option LevelFilter
  | [] => none
  | a :: rest => some (rest.foldl LevelFilter.maxl a)

/-- Model of the regex character class `\w` restricted to ASCII (alphanumeric
or underscore). -/
def isWordChar (c : Char) : Bool := c.isAlphanum || c = '_'

/-- Modelled from the spec: `field::Match` from the field module (field.rs is
not part of src/) — one field predicate: a field name together with an
optional opaque value predicate, kept here as its raw text. -/
structure Field.Match where
  name : String
  value : Option String
deriving DecidableEq, Repr

/-- Modelled from the spec: `field::CallsiteMatch` from the field module — a
field matcher bound to a call site's declared fields: the map from declared
field names to their cloned value predicates, plus the directive's level. -/
structure Field.CallsiteMatch where
  fields : List (String × String)
  level : LevelFilter
deriving DecidableEq, Repr

/-- Modelled from the spec: `field::SpanMatch` from the field module — a field
matcher bound to one span instance's recorded values, exposing whether its
recorded value currently satisfies its predicate and the level it carries. -/
structure Field.SpanMatch where
  is_matched : Bool
  level : LevelFilter
deriving DecidableEq, Repr

/-- The call-site metadata supplied by the instrumentation framework: a target
string, a name, and the set of declared field names (lookup by name). -/
structure Metadata where
  target : String
  name : String
  fields : List String
deriving DecidableEq, Repr

/-- Declared-field lookup `meta.fields().field(name).is_some()`. -/
def Metadata.hasField (m : Metadata) (n : String) : Bool := decide (n ∈ m.fields)

/-- A single dynamic filtering directive (struct `Directive`). -/
structure Directive where
  target : Option String
  in_span : Option String
  fields : List Field.Match
  level : LevelFilter
deriving DecidableEq, Repr

/-- A directive which statically enables or disables a call site
(struct `StaticDirective`). -/
structure StaticDirective where
  target : Option String
  level : LevelFilter
deriving DecidableEq, Repr

def Directive.has_name (d : Directive) : Bool := d.in_span.isSome

def Directive.has_fields (d : Directive) : Bool := !d.fields.isEmpty

def Directive.is_dynamic (d : Directive) : Bool := d.has_name || d.has_fields

/-- `Directive::into_static`: reduce a non-dynamic directive, returning the
original on failure. -/
def Directive.into_static (d : Directive) : Except Directive StaticDirective :=
  if d.is_dynamic then .error d
  else .ok { target := d.target, level := d.level }

/-- Rust `str::starts_with`: a byte-prefix test, modelled as character-list
prefix (UTF-8 byte order makes the two agree). -/
def strStartsWith (s t : String) : Bool := t.data.isPrefixOf s.data

/-- `Match::cares_about` for `Directive` (lines 130-157): target prefix check,
exact span-name check, and declaration of every named field. -/
def Directive.cares_about (d : Directive) (m : Metadata) : Bool :=
  (match d.target with
    | some t => strStartsWith m.target t
    | none => true)
  && (match d.in_span with
      | some n => decide (n = m.name)
      | none => true)
  && d.fields.all (fun f => m.hasField f.name)

/-- The element-wise collection of `Directive::field_matcher` (lines 96-113):
an undeclared field name aborts with an error; a declared field with no value
predicate is skipped by the `?` inside the `filter_map` closure; a declared
field with a value predicate contributes a (field, value) pair. -/
def collectFields : List Field.Match → Metadata → Except Unit (List (String × String))
  | [], _ => .ok []
  | f :: rest, m =>
    if m.hasField f.name then
      match f.value with
      | some v => (collectFields rest m).map (fun fs => (f.name, v) :: fs)
      | none => collectFields rest m
    else .error ()

/-- `Directive::field_matcher` (lines 94-118). -/
def Directive.field_matcher (d : Directive) (m : Metadata) : Option Field.CallsiteMatch :=
  match collectFields d.fields m with
  | .ok fs => some { fields := fs, level := d.level }
  | .error _ => none

def exceptIsOk : Except Unit (List (String × String)) → Bool
  | .ok _ => true
  | .error _ => false

/-- Comparator on `Nat` mirroring Rust `usize::cmp`. -/
def natCmp (m n : Nat) : Ordering := if m < n then .lt else if n < m then .gt else .eq

/-- Comparator on `Bool` mirroring Rust `bool::cmp` (false < true). -/
def boolCmp : Bool → Bool → Ordering
  | true, false => .gt
  | false, true => .lt
  | _, _ => .eq

/-- Comparator on `Option Nat` mirroring the derived `Option` order
(None < Some). -/
def optNatCmp : Option Nat → Option Nat → Ordering
  | none, none => .eq
  | none, some _ => .lt
  | some _, none => .gt
  | some a, some b => natCmp a b

/-- Byte-wise lexicographic comparison of strings, as Rust `String::cmp`
(UTF-8 byte order agrees with code-point order). -/
def strCmpL : List Char → List Char → Ordering
  | [], [] => .eq
  | [], _ :: _ => .lt
  | _ :: _, [] => .gt
  | a :: as, b :: bs =>
    match natCmp a.toNat b.toNat with
    | .eq => strCmpL as bs
    | o => o

def strCmp (s t : String) : Ordering := strCmpL s.data t.data

/-- Lexicographic comparison of `Option String`, as the derived order on
Rust `Option<String>` (None < Some). -/
def optStrCmp : Option String → Option String → Ordering
  | none, none => .eq
  | none, some _ => .lt
  | some _, none => .gt
  | some a, some b => strCmp a b

/-- The specificity tuple of a directive: has-span flag, field-predicate
count, target-prefix byte length (absent target as `none`). -/
def Directive.okey (d : Directive) : Bool × Nat × Option Nat :=
  (d.has_name, d.fields.length, d.target.map String.utf8ByteSize)

/-- Lexicographic comparison of two specificity tuples. -/
def keyCmp (x y : Bool × Nat × Option Nat) : Ordering :=
  (boolCmp x.1 y.1).then ((natCmp x.2.1 y.2.1).then (optNatCmp x.2.2 y.2.2))

/-- `Directive`'s total order (lines 264-291): span filter first, then field
count, then target length, with absent target below any present target. -/
def Directive.cmp (a b : Directive) : Ordering :=
  match a.has_name, b.has_name with
  | true, false => .gt
  | false, true => .lt
  | _, _ =>
    if a.fields.length = b.fields.length then
      match a.target, b.target with
      | some ta, some tb => natCmp ta.utf8ByteSize tb.utf8ByteSize
      | some _, none => .gt
      | none, some _ => .lt
      | none, none => .eq
    else natCmp a.fields.length b.fields.length

/-- `StaticDirective`'s `Ord` as actually derived on line 26
(`#[derive(..., Ord)]`): field-wise lexicographic — first the `Option<String>`
target by the derived option/string order, then the level. This is the order
the `BTreeSet` storage uses. -/
def StaticDirective.cmp (a b : StaticDirective) : Ordering :=
  match optStrCmp a.target b.target with
  | .eq => natCmp a.level.toNat b.level.toNat
  | o => o

/-- `StaticDirective`'s manually implemented `PartialOrd` (lines 396-405):
target byte-length comparison, absent target below any present target. -/
def StaticDirective.pcmp (a b : StaticDirective) : Option Ordering :=
  match a.target, b.target with
  | some ta, some tb => some (natCmp ta.utf8ByteSize tb.utf8ByteSize)
  | some _, none => some .gt
  | none, some _ => some .lt
  | none, none => some .eq

/-- `Match::cares_about` for `StaticDirective` (lines 410-420). -/
def StaticDirective.cares_about (d : StaticDirective) (m : Metadata) : Bool :=
  match d.target with
  | some t => strStartsWith m.target t
  | none => true

/-- The shared `Match` trait (lines 32-35). -/
class Match (α : Type) where
  cares_about : α → Metadata → Bool
  level : α → LevelFilter

instance instMatchDirective : Match Directive :=
  ⟨Directive.cares_about, Directive.level⟩

instance instMatchStatic : Match StaticDirective :=
  ⟨StaticDirective.cares_about, StaticDirective.level⟩

/-- The `Ord` used by the `BTreeSet` storage of each directive kind. -/
class DirOrd (α : Type) where
  cmp : α → α → Ordering

instance instDirOrdDirective : DirOrd Directive := ⟨Directive.cmp⟩

instance instDirOrdStatic : DirOrd StaticDirective := ⟨StaticDirective.cmp⟩

/-- `BTreeSet::insert` on the ascending member list: on comparator equality
the existing element is kept and the new one is dropped. -/
def btreeInsert (cmp : α → α → Ordering) (x : α) : List α → List α
  | [] => [x]
  | y :: ys =>
    match cmp x y with
    | .lt => x :: y :: ys
    | .eq => y :: ys
    | .gt => y :: btreeInsert cmp x ys

/-- Collecting an iterator into a `BTreeSet`, in encounter order. -/
def btreeOfList (cmp : α → α → Ordering) (l : List α) : List α :=
  l.foldl (fun acc x => btreeInsert cmp x acc) []

/-- `DirectiveSet<T>` (lines 43-47): the ascending `BTreeSet` member list plus
the running `max_level`. -/
structure DirectiveSet (α : Type) where
  directives : List α
  max_level : LevelFilter
deriving DecidableEq, Repr

/-- `Default for DirectiveSet` (lines 301-308). -/
def DirectiveSet.default (α : Type) : DirectiveSet α := ⟨[], .off⟩

/-- One step of `Extend for DirectiveSet` (lines 330-341): raise `max_level`
if the new directive's level is strictly greater, then insert. -/
def DirectiveSet.extendOne [DirOrd α] [Match α] (s : DirectiveSet α) (d : α) : DirectiveSet α :=
  { directives := btreeInsert DirOrd.cmp d s.directives,
    max_level := if s.max_level < Match.level d then Match.level d else s.max_level }

/-- `Extend for DirectiveSet` over a whole iterator. -/
def DirectiveSet.extend [DirOrd α] [Match α] (s : DirectiveSet α) (ds : List α) : DirectiveSet α :=
  ds.foldl DirectiveSet.extendOne s

/-- `FromIterator for DirectiveSet` (lines 322-328). -/
def DirectiveSet.from_iter [DirOrd α] [Match α] (ds : List α) : DirectiveSet α :=
  (DirectiveSet.default α).extend ds

/-- `DirectiveSet::directives_for` (lines 311-319): members in reverse
(descending) storage order, filtered by `cares_about`. -/
def DirectiveSet.directives_for [Match α] (s : DirectiveSet α) (m : Metadata) : List α :=
  s.directives.reverse.filter (fun d => Match.cares_about d m)

/-- A set of dynamic directives. -/
abbrev Dynamics := DirectiveSet Directive

/-- A set of static directives. -/
abbrev Statics := DirectiveSet StaticDirective

/-- `MatchSet<T>` (lines 52-56). -/
structure MatchSet (α : Type) where
  field_matches : List α
  base_level : LevelFilter
deriving DecidableEq, Repr

abbrev CallsiteMatcher := MatchSet Field.CallsiteMatch

abbrev SpanMatcher := MatchSet Field.SpanMatch

/-- The `filter_map` loop inside `Dynamics::matcher` (lines 348-361): a
directive whose `field_matcher` succeeds contributes it; one whose
`field_matcher` fails raises the running base level instead. -/
def matcherLoop : List Directive → Metadata → Option LevelFilter →
    List Field.CallsiteMatch × Option LevelFilter
  | [], _, base => ([], base)
  | d :: ds, m, base =>
    match d.field_matcher m with
    | some f => (f :: (matcherLoop ds m base).1, (matcherLoop ds m base).2)
    | none =>
      matcherLoop ds m
        (match base with
         | some b => if b < d.level then some d.level else some b
         | none => some d.level)

/-- `Dynamics::matcher` (lines 346-376). -/
def Dynamics.matcher (s : Dynamics) (m : Metadata) : Option CallsiteMatcher :=
  match matcherLoop (s.directives_for m) m none with
  | (fs, some b) => some { field_matches := fs, base_level := b }
  | (fs, none) =>
    if fs.isEmpty then none
    else some { field_matches := fs, base_level := .off }

/-- `Statics::add` (lines 388-393). -/
def Statics.add (s : Statics) (d : StaticDirective) : Statics :=
  { max_level := if s.max_level < d.level then d.level else s.max_level,
    directives := btreeInsert DirOrd.cmp d s.directives }

/-- `SpanMatcher::level` (lines 507-521): the maximum level among currently
satisfied bound field matchers, or the base level when none is satisfied. -/
def SpanMatcher.level (s : SpanMatcher) : LevelFilter :=
  (levelMax? (s.field_matches.filterMap
    (fun f => if f.is_matched then some f.level else none))).getD s.base_level

/-- Modelled from the spec: parsing a level keyword in the external level
module (level.rs is not part of src/) — case-insensitive keywords `trace`,
`debug`, `info`, `warn`, `error`, `off`, with `off0` through `off5` accepted
as equivalent spellings of OFF. -/
def LevelFilter.fromStr (s : String) : Option LevelFilter :=
  let t := String.mk (s.data.map Char.toLower)
  if t = "trace" then some .trace
  else if t = "debug" then some .debug
  else if t = "info" then some .info
  else if t = "warn" then some .warn
  else if t = "error" then some .error
  else if t = "off" || t = "off0" || t = "off1" || t = "off2" || t = "off3"
       || t = "off4" || t = "off5" then some .off
  else none

/-- The exact alternation `trace|TRACE|debug|DEBUG|info|INFO|warn|WARN|error|
ERROR|off|OFF[0-5]` used both for the `global_level` and for the `level`
capture of `DIRECTIVE_RE`. -/
def levelWords : List String :=
  ["trace", "TRACE", "debug", "DEBUG", "info", "INFO", "warn", "WARN",
   "error", "ERROR", "off", "OFF0", "OFF1", "OFF2", "OFF3", "OFF4", "OFF5"]

def isLevelWord (s : String) : Bool := levelWords.contains s

/-- Characters of a target token, the class `[\w:]`. -/
def isTargetChar (c : Char) : Bool := isWordChar c || c = ':'

/-- Split a character list at the first `]`, returning the part before it and
the part after it; `none` when no `]` occurs. -/
def splitAtRBracket : List Char → Option (List Char × List Char)
  | [] => none
  | c :: cs =>
    if c = ']' then some ([], cs)
    else
      match splitAtRBracket cs with
      | some (a, b) => some (c :: a, b)
      | none => none

/-- Split a character list at the first closing brace. -/
def splitAtRBrace : List Char → Option (List Char × List Char)
  | [] => none
  | c :: cs =>
    if c = '}' then some ([], cs)
    else
      match splitAtRBrace cs with
      | some (a, b) => some (c :: a, b)
      | none => none

/-- One iteration of `(?:(?P<target>[\w:]+)|(?P<span>\[[^\]]*\]))`: a greedy
maximal target token is preferred; otherwise a bracketed span token running to
the first `]`. Returns whether the token was a target, its text, and the
rest. -/
def matchTok (l : List Char) : Option (Bool × List Char × List Char) :=
  match l with
  | [] => none
  | c :: cs =>
    if isTargetChar c then
      let p := l.span isTargetChar
      some (true, p.1, p.2)
    else if c = '[' then
      match splitAtRBracket cs with
      | some (content, rest) => some (false, '[' :: (content ++ [']']), rest)
      | none => none
    else none

/-- The trailing `(?:=(?P<level>...)?)?$` of `DIRECTIVE_RE`: nothing, a bare
equals sign, or an equals sign followed by exactly a level keyword. -/
inductive Suffix
  | noEq
  | eqEmpty
  | eqLevel (k : List Char)
deriving DecidableEq, Repr

def matchSuffix : List Char → Option Suffix
  | [] => some .noEq
  | c :: rest =>
    if c = '=' then
      if rest.isEmpty then some .eqEmpty
      else if isLevelWord (String.mk rest) then some (.eqLevel rest)
      else none
    else none

/-- Last-iteration capture semantics of the repeated group: the `target` and
`span` captures hold the last token of each kind. -/
def lastCaps (t1 : Bool × List Char) (t2 : Option (Bool × List Char)) :
    Option (List Char) × Option (List Char) :=
  match t2 with
  | none => if t1.1 then (some t1.2, none) else (none, some t1.2)
  | some u =>
    match t1.1, u.1 with
    | true, true => (some u.2, none)
    | true, false => (some t1.2, some u.2)
    | false, true => (some u.2, some t1.2)
    | false, false => (none, some u.2)

/-- The second anchored alternative of `DIRECTIVE_RE`: one or two tokens
followed by the optional level suffix, with backtracking that skips the
optional second iteration when the suffix cannot match after it. -/
def matchBranch2 (l : List Char) : Option (Option (List Char) × Option (List Char) × Suffix) :=
  match matchTok l with
  | none => none
  | some (isT1, tok1, r1) =>
    match matchTok r1 with
    | some (isT2, tok2, r2) =>
      (match matchSuffix r2 with
       | some suf =>
         let caps := lastCaps (isT1, tok1) (some (isT2, tok2))
         some (caps.1, caps.2, suf)
       | none =>
         match matchSuffix r1 with
         | some suf =>
           let caps := lastCaps (isT1, tok1) none
           some (caps.1, caps.2, suf)
         | none => none)
    | none =>
      match matchSuffix r1 with
      | some suf =>
        let caps := lastCaps (isT1, tok1) none
        some (caps.1, caps.2, suf)
      | none => none

/-- `str::trim_matches(|c| c == '[' || c == ']')` applied to the span
capture. -/
def isBracketChar (c : Char) : Bool := c = '[' || c = ']'

def trimBrackets (l : List Char) : List Char :=
  ((l.dropWhile isBracketChar).reverse.dropWhile isBracketChar).reverse

/-- Characters of a field name inside `FIELD_FILTER_RE`:
`[[[:word:]]\.]`. -/
def isFieldNameChar (c : Char) : Bool := isWordChar c || c = '.'

/-- A `FIELD_FILTER_RE` match attempt anchored at the current position:
a field name, an optional `=value` part running to the next comma, then a
comma (with one optional whitespace) or end of input. The returned match text
includes the trailing separator, exactly as `Match::as_str` does. -/
def matchFieldAt (l : List Char) : Option (List Char × List Char) :=
  match l with
  | [] => none
  | c :: cs =>
    if isWordChar c then
      let p := cs.span isFieldNameChar
      let name := c :: p.1
      let vp : List Char × List Char :=
        match p.2 with
        | '=' :: v =>
          let q := v.span (fun ch => ch ≠ ',')
          if q.1.isEmpty then ([], p.2) else ('=' :: q.1, q.2)
        | _ => ([], p.2)
      match vp.2 with
      | [] => some (name ++ vp.1, [])
      | ',' :: rest =>
        (match rest with
         | [] => some (name ++ vp.1 ++ [','], [])
         | c2 :: rest2 =>
           if c2.isWhitespace then some (name ++ vp.1 ++ [',', c2], rest2)
           else some (name ++ vp.1 ++ [','], rest))
      | _ => none
    else none

/-- `find_iter` of `FIELD_FILTER_RE`: successive non-overlapping leftmost
matches. Fuelled by the input length; each successful match consumes at least
one character. -/
def findFieldMatchesAux : Nat → List Char → List (List Char)
  | 0, _ => []
  | _ + 1, [] => []
  | fuel + 1, c :: cs =>
    match matchFieldAt (c :: cs) with
    | some (w, rest) => w :: findFieldMatchesAux fuel rest
    | none => findFieldMatchesAux fuel cs

def findFieldMatches (l : List Char) : List (List Char) :=
  findFieldMatchesAux l.length l

/-- Modelled from the spec: `field::Match::from_str` of the field module
(field.rs is not part of src/) — a field name of word characters and dots,
optionally followed by an equals sign and an opaque value predicate kept as
raw text. -/
def Field.Match.fromStr (s : String) : Field.Match :=
  let base := s.data.takeWhile (fun c => c ≠ '=')
  let name := String.mk (base.takeWhile isFieldNameChar)
  let value :=
    if s.data.any (fun c => c = '=') then
      some (String.mk ((s.data.dropWhile (fun c => c ≠ '=')).drop 1))
    else none
  { name := name, value := value }

/-- `SPAN_PART_RE` applied to the trimmed span content: an optional leading
word as the span name, then an optional braced field list running to the
first closing brace; the first (possibly empty) match always starts at
position zero. -/
def spanPart (c : List Char) : Option String × List Field.Match :=
  let p := c.span isWordChar
  let nameCap := if p.1.isEmpty then none else some (String.mk p.1)
  let fieldsCap : Option (List Char) :=
    match p.2 with
    | '{' :: r => (splitAtRBrace r).map Prod.fst
    | _ => none
  (nameCap,
   match fieldsCap with
   | some f => (findFieldMatches f).map (fun w => Field.Match.fromStr (String.mk w))
   | none => [])

/-- `FromStr for Directive` (lines 164-251): the `global_level` alternative is
preferred; otherwise the target/span alternative is decomposed, a target that
itself parses as a level is dropped, the span token is trimmed of brackets and
split into name and field predicates, and a missing or unparsable level
capture defaults to ERROR. A `none` result is the `ParseError` case. -/
def Directive.from_str (s : String) : Option Directive :=
  if isLevelWord s then
    match LevelFilter.fromStr s with
    | some l => some { target := none, in_span := none, fields := [], level := l }
    | none => some { target := none, in_span := none, fields := [], level := .error }
  else
    match matchBranch2 s.data with
    | none => none
    | some (tcap, scap, suf) =>
      let target : Option String := tcap.bind fun t =>
        let ts := String.mk t
        if (LevelFilter.fromStr ts).isSome then none else some ts
      let sp :=
        match scap with
        | some spTok => spanPart (trimBrackets spTok)
        | none => (none, [])
      let level :=
        match suf with
        | Suffix.eqLevel k => (LevelFilter.fromStr (String.mk k)).getD .error
        | _ => .error
      some { target := target, in_span := sp.1, fields := sp.2, level := level }

/-- `Directive::make_tables` (lines 120-127): partition parsed directives by
dynamism into two `BTreeSet<Directive>`s, reduce the static partition, and
build both directive sets. -/
def Directive.make_tables (ds : List Directive) : Dynamics × Statics :=
  let dyns := btreeOfList Directive.cmp (ds.filter (fun d => d.is_dynamic))
  let stats := (btreeOfList Directive.cmp (ds.filter (fun d => !d.is_dynamic))).filterMap
    (fun d => d.into_static.toOption)
  (DirectiveSet.from_iter dyns, DirectiveSet.from_iter stats)

end EnvFilter

namespace EnvFilter

/-! ### Helper lemmas on comparators -/

theorem LevelFilter.le_iff {a b : LevelFilter} : a ≤ b ↔ a.toNat ≤ b.toNat := Iff.rfl

theorem LevelFilter.lt_iff {a b : LevelFilter} : a < b ↔ a.toNat < b.toNat := Iff.rfl


theorem boolCmp_swap : ∀ a b : Bool, (boolCmp a b).swap = boolCmp b a := by decide

theorem boolCmp_eq_iff : ∀ a b : Bool, (boolCmp a b = .eq ↔ a = b) := by decide

theorem boolCmp_lt_iff : ∀ a b : Bool, (boolCmp a b = .lt ↔ a = false ∧ b = true) := by
  decide

theorem natCmp_lt_iff {m n : Nat} : natCmp m n = .lt ↔ m < n := by
  unfold natCmp
  by_cases h1 : m < n
  · simp [h1]
  · by_cases h2 : n < m <;> simp [h1, h2]

theorem natCmp_gt_iff {m n : Nat} : natCmp m n = .gt ↔ n < m := by
  unfold natCmp
  by_cases h1 : m < n
  · simp [h1]
    omega
  · by_cases h2 : n < m <;> simp [h1, h2]

theorem natCmp_eq_iff {m n : Nat} : natCmp m n = .eq ↔ m = n := by
  unfold natCmp
  by_cases h1 : m < n
  · simp [h1]
    omega
  · by_cases h2 : n < m
    · simp [h1, h2]
      omega
    · simp [h1, h2]
      omega

theorem natCmp_swap (m n : Nat) : (natCmp m n).swap = natCmp n m := by
  rcases Nat.lt_trichotomy m n with h | h | h
  · rw [natCmp_lt_iff.mpr h, natCmp_gt_iff.mpr h]
    rfl
  · subst h
    rw [natCmp_eq_iff.mpr rfl]
    rfl
  · rw [natCmp_gt_iff.mpr h, natCmp_lt_iff.mpr h]
    rfl

theorem optNatCmp_swap (a b : Option Nat) : (optNatCmp a b).swap = optNatCmp b a := by
  cases a <;> cases b <;> first | rfl | exact natCmp_swap _ _

theorem optNatCmp_eq_iff (a b : Option Nat) : optNatCmp a b = .eq ↔ a = b := by
  cases a <;> cases b <;> simp [optNatCmp, natCmp_eq_iff]

theorem optNatCmp_lt_iff (a b : Option Nat) :
    optNatCmp a b = .lt ↔
      (a = none ∧ ∃ k, b = some k) ∨ (∃ x y, a = some x ∧ b = some y ∧ x < y) := by
  cases a <;> cases b <;> simp [optNatCmp, natCmp_lt_iff]

theorem ordering_then_swap (a b : Ordering) : (a.then b).swap = a.swap.then b.swap := by
  cases a <;> rfl

theorem ordering_then_eq_lt (a b : Ordering) :
    a.then b = .lt ↔ a = .lt ∨ (a = .eq ∧ b = .lt) := by
  cases a <;> simp [Ordering.then]

theorem ordering_then_eq_eq (a b : Ordering) :
    a.then b = .eq ↔ a = .eq ∧ b = .eq := by
  cases a <;> simp [Ordering.then]

theorem keyCmp_swap (x y : Bool × Nat × Option Nat) : (keyCmp x y).swap = keyCmp y x := by
  unfold keyCmp
  rw [ordering_then_swap, ordering_then_swap, boolCmp_swap, natCmp_swap, optNatCmp_swap]

theorem keyCmp_eq_iff (x y : Bool × Nat × Option Nat) : keyCmp x y = .eq ↔ x = y := by
  unfold keyCmp
  rw [ordering_then_eq_eq, ordering_then_eq_eq, boolCmp_eq_iff, natCmp_eq_iff,
    optNatCmp_eq_iff]
  obtain ⟨x1, x2, x3⟩ := x
  obtain ⟨y1, y2, y3⟩ := y
  simp [Prod.ext_iff]

theorem keyCmp_lt_iff (x y : Bool × Nat × Option Nat) :
    keyCmp x y = .lt ↔
      (x.1 = false ∧ y.1 = true)
      ∨ (x.1 = y.1 ∧ x.2.1 < y.2.1)
      ∨ (x.1 = y.1 ∧ x.2.1 = y.2.1 ∧
          ((x.2.2 = none ∧ ∃ k, y.2.2 = some k)
            ∨ (∃ a b, x.2.2 = some a ∧ y.2.2 = some b ∧ a < b))) := by
  unfold keyCmp
  rw [ordering_then_eq_lt, ordering_then_eq_lt, boolCmp_lt_iff, boolCmp_eq_iff,
    natCmp_lt_iff, natCmp_eq_iff, optNatCmp_lt_iff]
  tauto

theorem keyCmp_lt_trans {x y z : Bool × Nat × Option Nat}
    (h1 : keyCmp x y = .lt) (h2 : keyCmp y z = .lt) : keyCmp x z = .lt := by
  rw [keyCmp_lt_iff] at h1 h2 ⊢
  obtain ⟨x1, x2, x3⟩ := x
  obtain ⟨y1, y2, y3⟩ := y
  obtain ⟨z1, z2, z3⟩ := z
  simp only at h1 h2 ⊢
  rcases h1 with ⟨hx, hy⟩ | ⟨he, hlt⟩ | ⟨he, hf, hopt⟩ <;>
    rcases h2 with ⟨hx2, hy2⟩ | ⟨he2, hlt2⟩ | ⟨he2, hf2, hopt2⟩ <;>
      try (subst_vars; simp_all; try omega)
  rcases hopt with ⟨hn, k, hk⟩ | ⟨a, b, ha, hb, hab⟩ <;>
    rcases hopt2 with ⟨hn2, k2, hk2⟩ | ⟨a2, b2, ha2, hb2, hab2⟩ <;>
      subst_vars <;> simp_all <;> omega


theorem keyCmp_refl (x : Bool × Nat × Option Nat) : keyCmp x x = .eq :=
  (keyCmp_eq_iff x x).mpr rfl

/-- `Directive.cmp` compares exactly the specificity tuples. -/
theorem directive_cmp_eq_keyCmp (a b : Directive) :
    a.cmp b = keyCmp a.okey b.okey := by
  unfold Directive.cmp keyCmp Directive.okey
  cases ha : a.has_name <;> cases hb : b.has_name <;>
    simp only [boolCmp, Ordering.then] <;>
    · by_cases hf : a.fields.length = b.fields.length
      · rw [if_pos hf, natCmp_eq_iff.mpr hf]
        cases a.target <;> cases b.target <;> rfl
      · rw [if_neg hf]
        cases hn : natCmp a.fields.length b.fields.length
        · rfl
        · exact absurd (natCmp_eq_iff.mp hn) hf
        · rfl

/-! ### C4 -/

/-- C4: the comparison on `Directive` is a strict total order determined only
by the specificity tuple (has span filter, field-predicate count, target
length/presence): a directive with a span filter compares greater than one
without regardless of the other components; the comparator is antisymmetric
(swapping arguments swaps the result) and transitive; any two directives with
identical tuples compare equal; and the result depends only on the tuples. -/
theorem directive_cmp_strict_total_order (a b c : Directive) :
    (a.has_name = true → b.has_name = false → a.cmp b = .gt)
    ∧ ((a.cmp b).swap = b.cmp a)
    ∧ (a.cmp b = .lt → b.cmp c = .lt → a.cmp c = .lt)
    ∧ (a.okey = b.okey → a.cmp b = .eq)
    ∧ (a.cmp b = keyCmp a.okey b.okey) := by
  refine ⟨?_, ?_, ?_, ?_, directive_cmp_eq_keyCmp a b⟩
  · intro h1 h2
    unfold Directive.cmp
    rw [h1, h2]
  · rw [directive_cmp_eq_keyCmp, directive_cmp_eq_keyCmp, keyCmp_swap]
  · rw [directive_cmp_eq_keyCmp, directive_cmp_eq_keyCmp, directive_cmp_eq_keyCmp]
    exact keyCmp_lt_trans
  · intro h
    rw [directive_cmp_eq_keyCmp, h, keyCmp_refl]

/-- Witness for C4 at concrete directives. -/
theorem directive_cmp_strict_total_order_witness :
    Directive.cmp ⟨none, some "s", [], .error⟩ ⟨some "long_target", none, [], .trace⟩
      = .gt :=
  (directive_cmp_strict_total_order ⟨none, some "s", [], .error⟩
    ⟨some "long_target", none, [], .trace⟩ ⟨none, none, [], .off⟩).1 rfl rfl

/-! ### C7 -/

/-- C7: `Directive::cares_about` is false exactly when a target filter exists
that the metadata's target does not start with, or a span-name filter exists
that differs from the metadata's name, or some field predicate names a field
the metadata does not declare; it is true otherwise. -/
theorem cares_about_true_iff (d : Directive) (m : Metadata) :
    d.cares_about m = true ↔
      (∀ t, d.target = some t → strStartsWith m.target t = true)
      ∧ (∀ n, d.in_span = some n → n = m.name)
      ∧ (∀ f ∈ d.fields, f.name ∈ m.fields) := by
  unfold Directive.cares_about
  rcases d.target with _ | t <;> rcases d.in_span with _ | n <;>
    simp [Metadata.hasField, List.all_eq_true, Bool.and_eq_true, and_assoc]

theorem directive_cares_about_characterization (d : Directive) (m : Metadata) :
    d.cares_about m = false ↔
      (∃ t, d.target = some t ∧ strStartsWith m.target t = false)
      ∨ (∃ n, d.in_span = some n ∧ ¬ n = m.name)
      ∨ (∃ f, f ∈ d.fields ∧ ¬ f.name ∈ m.fields) := by
  rw [Bool.eq_false_iff, ne_eq, cares_about_true_iff]
  simp only [not_and_or, not_forall, Classical.not_imp, Bool.not_eq_true, exists_prop]

/-! ### C1 -/

/-- C1 counterexample: a directive with no field predicates at all — here a
span-only directive — does produce a `CallsiteMatch` from `field_matcher`
(an empty one), rather than the `none` the claim requires for field-less
directives. -/
theorem field_matcher_fieldless_counterexample :
    Directive.field_matcher ⟨none, some "my_span", [], .debug⟩ ⟨"t", "my_span", []⟩
        = some ⟨[], .debug⟩
    ∧ Directive.field_matcher ⟨none, some "my_span", [], .debug⟩ ⟨"t", "my_span", []⟩
        ≠ none := by decide

theorem collectFields_isOk (fs : List Field.Match) (m : Metadata) :
    exceptIsOk (collectFields fs m) = fs.all (fun f => m.hasField f.name) := by
  induction fs with
  | nil => rfl
  | cons f rest ih =>
    unfold collectFields
    by_cases h : m.hasField f.name
    · rw [if_pos h]
      cases hv : f.value
      · simpa [List.all_cons, h] using ih
      · rcases hrec : collectFields rest m with ⟨⟨⟩⟩ | l <;>
        · rw [hrec] at ih
          simpa [List.all_cons, h, Except.map, exceptIsOk] using ih
    · rw [if_neg h]
      simp [List.all_cons, exceptIsOk, h]

theorem field_matcher_eq_none_aux (d : Directive) (m : Metadata) :
    (d.field_matcher m = none ↔ (d.fields.all (fun f => m.hasField f.name)) = false) := by
  unfold Directive.field_matcher
  have hok := collectFields_isOk d.fields m
  rcases hc : collectFields d.fields m with ⟨⟨⟩⟩ | l <;> rw [hc] at hok <;>
    simp only [exceptIsOk] at hok <;> simp [← hok]

/-- C1 (amended): `field_matcher` returns none exactly when some field
predicate names a field the call site does not declare; a directive with no
field predicates always yields `Some` of an empty `CallsiteMatch` carrying the
directive's level — so field-less directives contribute a `CallsiteMatch` and
never the matcher's base level. -/
theorem field_matcher_none_iff (d : Directive) (m : Metadata) :
    (d.field_matcher m = none ↔ ∃ f, f ∈ d.fields ∧ ¬ f.name ∈ m.fields)
    ∧ (d.fields = [] → d.field_matcher m = some ⟨[], d.level⟩) := by
  constructor
  · rw [field_matcher_eq_none_aux]
    simp [Metadata.hasField, List.all_eq_true, not_forall, Bool.eq_false_iff]
  · intro h
    unfold Directive.field_matcher
    rw [h]
    rfl

/-- Witness for C1's amended statement at a concrete field-less directive. -/
theorem field_matcher_none_iff_witness :
    Directive.field_matcher ⟨some "t", none, [], .info⟩ ⟨"target", "n", []⟩
      = some ⟨[], .info⟩ :=
  (field_matcher_none_iff ⟨some "t", none, [], .info⟩ ⟨"target", "n", []⟩).2 rfl

/-! ### C2 (counterexample) -/

/-- C2 counterexample: one applicable field-less directive of level DEBUG —
the claim requires the resulting `base_level` to be DEBUG, but the directive
contributes an (empty) field matcher instead and `base_level` stays OFF. -/
theorem matcher_base_level_counterexample :
    Dynamics.matcher
        (DirectiveSet.from_iter [(⟨none, some "my_span", [], .debug⟩ : Directive)])
        ⟨"t", "my_span", []⟩
      = some ⟨[⟨[], .debug⟩], .off⟩
    ∧ LevelFilter.off ≠ LevelFilter.debug := by decide

/-! ### C3 (counterexample) -/

/-- C3 counterexample: two field-less directives with equal specificity tuples
but different levels; the comparator-based `BTreeSet` drops the second
(TRACE) member, yet `max_level` was already raised to TRACE, so `max_level`
exceeds the true maximum (INFO) over the stored members. -/
theorem max_level_exceeds_members_counterexample :
    (DirectiveSet.from_iter
        [(⟨none, none, [], .info⟩ : Directive), ⟨none, none, [], .trace⟩]).directives
      = [⟨none, none, [], .info⟩]
    ∧ (DirectiveSet.from_iter
        [(⟨none, none, [], .info⟩ : Directive), ⟨none, none, [], .trace⟩]).max_level
      = .trace
    ∧ LevelFilter.trace ≠ LevelFilter.info := by decide

/-! ### C5 -/

/-- C5 (evaluating the code at the failing input): the storage order actually
used by the `BTreeSet` is the derived lexicographic order on (target, level),
which ranks the longer target "aa" below the shorter target "b", while the
manually implemented `PartialOrd` in the very same file ranks "aa" above "b";
the built set therefore stores the longer, more specific target first
(ascending), so the claim's specificity storage order does not hold. -/
theorem static_directive_order_bug :
    StaticDirective.cmp ⟨some "aa", .error⟩ ⟨some "b", .error⟩ = .lt
    ∧ StaticDirective.pcmp ⟨some "aa", .error⟩ ⟨some "b", .error⟩ = some .gt
    ∧ (DirectiveSet.from_iter
        [(⟨some "aa", .error⟩ : StaticDirective), ⟨some "b", .error⟩]).directives
      = [⟨some "aa", .error⟩, ⟨some "b", .error⟩]
    ∧ "aa".utf8ByteSize > "b".utf8ByteSize := by decide

/-! ### C6 -/

/-- C6 counterexample: the whole rule string "OFF" is the level keyword `off`
in uppercase, yet parsing yields level ERROR, not OFF: the regex accepts
uppercase OFF only with a digit suffix, so "OFF" is captured as a target
token, recognized as a level spelling, dropped, and the level defaults to
ERROR. -/
theorem from_str_upper_off_counterexample :
    Directive.from_str "OFF" = some ⟨none, none, [], .error⟩
    ∧ Directive.from_str "OFF" ≠ some ⟨none, none, [], .off⟩ := by decide

/-- C6 (amended): for exactly the keyword spellings the grammar's level
alternation accepts — the six lowercase keywords, uppercase TRACE, DEBUG,
INFO, WARN, ERROR, and OFF0 through OFF5 — parsing the keyword as the entire
rule string succeeds and yields a directive with that level and no target,
span, or field filters. -/
theorem from_str_level_keyword_spellings :
    Directive.from_str "trace" = some ⟨none, none, [], .trace⟩
    ∧ Directive.from_str "TRACE" = some ⟨none, none, [], .trace⟩
    ∧ Directive.from_str "debug" = some ⟨none, none, [], .debug⟩
    ∧ Directive.from_str "DEBUG" = some ⟨none, none, [], .debug⟩
    ∧ Directive.from_str "info" = some ⟨none, none, [], .info⟩
    ∧ Directive.from_str "INFO" = some ⟨none, none, [], .info⟩
    ∧ Directive.from_str "warn" = some ⟨none, none, [], .warn⟩
    ∧ Directive.from_str "WARN" = some ⟨none, none, [], .warn⟩
    ∧ Directive.from_str "error" = some ⟨none, none, [], .error⟩
    ∧ Directive.from_str "ERROR" = some ⟨none, none, [], .error⟩
    ∧ Directive.from_str "off" = some ⟨none, none, [], .off⟩
    ∧ Directive.from_str "OFF0" = some ⟨none, none, [], .off⟩
    ∧ Directive.from_str "OFF1" = some ⟨none, none, [], .off⟩
    ∧ Directive.from_str "OFF2" = some ⟨none, none, [], .off⟩
    ∧ Directive.from_str "OFF3" = some ⟨none, none, [], .off⟩
    ∧ Directive.from_str "OFF4" = some ⟨none, none, [], .off⟩
    ∧ Directive.from_str "OFF5" = some ⟨none, none, [], .off⟩ := by decide

/-! ### C10 -/

/-- C10: parsing `"[]"` succeeds and yields a directive with no target, no
span name, no field predicates, and level ERROR; `is_dynamic` classifies it as
static, and `make_tables` places its reduction in the static table while the
dynamic table stays empty. -/
theorem from_str_empty_brackets_static :
    Directive.from_str "[]" = some ⟨none, none, [], .error⟩
    ∧ Directive.is_dynamic ⟨none, none, [], .error⟩ = false
    ∧ (Directive.make_tables [⟨none, none, [], .error⟩]).2.directives = [⟨none, .error⟩]
    ∧ (Directive.make_tables [⟨none, none, [], .error⟩]).1.directives = [] := by decide

/-! ### C2 (amended) -/

theorem cares_about_field_matcher_some (d : Directive) (m : Metadata)
    (h : d.cares_about m = true) : d.field_matcher m ≠ none := by
  rw [ne_eq, field_matcher_eq_none_aux]
  have h3 := ((cares_about_true_iff d m).mp h).2.2
  simp only [Bool.not_eq_false, List.all_eq_true, Metadata.hasField, decide_eq_true_eq]
  exact h3

theorem matcherLoop_cons (d : Directive) (ds : List Directive) (m : Metadata)
    (b : Option LevelFilter) :
    matcherLoop (d :: ds) m b =
      match d.field_matcher m with
      | some f => (f :: (matcherLoop ds m b).1, (matcherLoop ds m b).2)
      | none =>
        matcherLoop ds m
          (match b with
           | some x => if x < d.level then some d.level else some x
           | none => some d.level) := rfl

theorem matcherLoop_all_some (m : Metadata) :
    ∀ (l : List Directive) (b : Option LevelFilter),
      (∀ d ∈ l, d.field_matcher m ≠ none) →
      (matcherLoop l m b).2 = b ∧ (matcherLoop l m b).1.length = l.length := by
  intro l
  induction l with
  | nil => exact fun b _ => ⟨rfl, rfl⟩
  | cons d ds ih =>
    intro b h
    have hd := h d (List.mem_cons_self d ds)
    rcases hf : d.field_matcher m with _ | f
    · exact absurd hf hd
    · have hrest := ih b (fun x hx => h x (List.mem_cons_of_mem d hx))
      rw [matcherLoop_cons, hf]
      exact ⟨hrest.1, by simp [hrest.2]⟩

/-- C2 (amended): `Dynamics::matcher` returns none exactly when no directive
cares about the call site; otherwise it returns a `CallsiteMatcher` in which
every applicable directive — field-less ones included — has contributed a
field matcher, and whose `base_level` is always OFF: because `cares_about`
already requires every named field to be declared, `field_matcher` never fails
on an applicable directive and the base-level accumulation branch is
unreachable. -/
theorem dynamics_matcher_amended (s : Dynamics) (m : Metadata) :
    (Dynamics.matcher s m = none ↔ DirectiveSet.directives_for s m = [])
    ∧ (∀ c, Dynamics.matcher s m = some c →
        c.base_level = .off
        ∧ c.field_matches.length = (DirectiveSet.directives_for s m).length) := by
  have hall : ∀ d ∈ DirectiveSet.directives_for s m, d.field_matcher m ≠ none := by
    intro d hd
    have hc := (List.mem_filter.mp hd).2
    exact cares_about_field_matcher_some d m hc
  have hloop := matcherLoop_all_some m (DirectiveSet.directives_for s m) none hall
  rcases hr : matcherLoop (DirectiveSet.directives_for s m) m none with ⟨fs, b⟩
  rw [hr] at hloop
  obtain ⟨hb, hlen⟩ := hloop
  dsimp only at hb hlen
  subst hb
  constructor
  · unfold Dynamics.matcher
    rw [hr]
    dsimp only
    by_cases he : fs.isEmpty
    · have hfs : fs = [] := by
        cases fs
        · rfl
        · exact absurd he (by simp)
      subst hfs
      simp only [List.isEmpty_nil, if_true]
      have : DirectiveSet.directives_for s m = [] :=
        List.eq_nil_of_length_eq_zero hlen.symm
      simp [this]
    · have hfs : fs ≠ [] := by
        intro hcon
        subst hcon
        exact absurd rfl he
      rw [if_neg he]
      constructor
      · intro hcon
        exact absurd hcon (by simp)
      · intro hcon
        rw [hcon] at hlen
        exact absurd (List.eq_nil_of_length_eq_zero hlen) hfs
  · intro c hc
    unfold Dynamics.matcher at hc
    rw [hr] at hc
    dsimp only at hc
    by_cases he : fs.isEmpty
    · rw [if_pos he] at hc
      cases hc
    · rw [if_neg he] at hc
      injection hc with hc
      subst hc
      exact ⟨rfl, hlen⟩

/-- Witness for C2's amended statement at a concrete directive set. -/
theorem dynamics_matcher_amended_witness :
    MatchSet.base_level
        (⟨[⟨[], LevelFilter.info⟩], LevelFilter.off⟩ : CallsiteMatcher) = .off
    ∧ (MatchSet.field_matches
        (⟨[⟨[], LevelFilter.info⟩], LevelFilter.off⟩ : CallsiteMatcher)).length
      = (DirectiveSet.directives_for
          (DirectiveSet.from_iter [(⟨none, some "sp", [], .info⟩ : Directive)])
          ⟨"t", "sp", []⟩).length :=
  (dynamics_matcher_amended
    (DirectiveSet.from_iter [(⟨none, some "sp", [], .info⟩ : Directive)])
    ⟨"t", "sp", []⟩).2 ⟨[⟨[], LevelFilter.info⟩], LevelFilter.off⟩ (by decide)

/-! ### C3 (amended) -/

theorem btreeInsert_mem {α : Type} (cmp : α → α → Ordering) (x : α) (l : List α) :
    ∀ y ∈ btreeInsert cmp x l, y = x ∨ y ∈ l := by
  induction l with
  | nil =>
    intro y hy
    simp only [btreeInsert, List.mem_singleton] at hy
    exact Or.inl hy
  | cons a as ih =>
    intro y hy
    unfold btreeInsert at hy
    rcases hc : cmp x a with _ | _ | _ <;> rw [hc] at hy <;>
      simp only [List.mem_cons] at hy ⊢
    · tauto
    · tauto
    · rcases hy with hy | hy
      · tauto
      · rcases ih y hy with h | h <;> tauto

theorem extendOne_max_mono {α : Type} [DirOrd α] [Match α] (s : DirectiveSet α) (d : α) :
    s.max_level ≤ (s.extendOne d).max_level := by
  simp only [DirectiveSet.extendOne]
  by_cases h : s.max_level < Match.level d
  · rw [if_pos h]
    exact Nat.le_of_lt h
  · rw [if_neg h]
    exact Nat.le_refl _

theorem extendOne_inv {α : Type} [DirOrd α] [Match α] (s : DirectiveSet α) (d : α)
    (hinv : ∀ x ∈ s.directives, Match.level x ≤ s.max_level) :
    ∀ x ∈ (s.extendOne d).directives, Match.level x ≤ (s.extendOne d).max_level := by
  intro x hx
  simp only [DirectiveSet.extendOne] at hx ⊢
  rcases btreeInsert_mem _ _ _ x hx with h | h
  · subst h
    by_cases hlt : s.max_level < Match.level x
    · rw [if_pos hlt]
      exact Nat.le_refl _
    · rw [if_neg hlt]
      exact Nat.le_of_not_lt hlt
  · have h1 := hinv x h
    by_cases hlt : s.max_level < Match.level d
    · rw [if_pos hlt]
      exact Nat.le_trans h1 (Nat.le_of_lt hlt)
    · rw [if_neg hlt]
      exact h1

theorem extend_inv {α : Type} [DirOrd α] [Match α] :
    ∀ (ds : List α) (s : DirectiveSet α),
      (∀ x ∈ s.directives, Match.level x ≤ s.max_level) →
      (∀ x ∈ (s.extend ds).directives, Match.level x ≤ (s.extend ds).max_level)
      ∧ s.max_level ≤ (s.extend ds).max_level := by
  intro ds
  induction ds with
  | nil => exact fun s h => ⟨h, Nat.le_refl _⟩
  | cons d ds ih =>
    intro s h
    have h1 := extendOne_inv s d h
    have h2 := extendOne_max_mono s d
    have h3 := ih (s.extendOne d) h1
    exact ⟨h3.1, Nat.le_trans h2 h3.2⟩

theorem statics_add_inv (st : Statics) (d : StaticDirective)
    (hst : ∀ x ∈ st.directives, x.level ≤ st.max_level) :
    (∀ x ∈ (Statics.add st d).directives, x.level ≤ (Statics.add st d).max_level)
    ∧ st.max_level ≤ (Statics.add st d).max_level := by
  constructor
  · intro x hx
    simp only [Statics.add] at hx ⊢
    rcases btreeInsert_mem _ _ _ x hx with h | h
    · subst h
      by_cases hlt : st.max_level < x.level
      · rw [if_pos hlt]
        exact Nat.le_refl _
      · rw [if_neg hlt]
        exact Nat.le_of_not_lt hlt
    · have h1 := hst x h
      by_cases hlt : st.max_level < d.level
      · rw [if_pos hlt]
        exact Nat.le_trans h1 (Nat.le_of_lt hlt)
      · rw [if_neg hlt]
        exact h1
  · simp only [Statics.add]
    by_cases hlt : st.max_level < d.level
    · rw [if_pos hlt]
      exact Nat.le_of_lt hlt
    · rw [if_neg hlt]
      exact Nat.le_refl _

/-- C3 (amended): `max_level` is an upper bound on the levels of the stored
members — it can strictly exceed their true maximum when a directive is
dropped by comparator-equality deduplication — it is OFF for the empty set,
and neither `extend` nor `Statics::add` ever lowers it. -/
theorem directive_set_max_level_upper_bound {α : Type} [DirOrd α] [Match α]
    (s : DirectiveSet α) (ds : List α) (st : Statics) (d : StaticDirective)
    (hinv : ∀ x ∈ s.directives, Match.level x ≤ s.max_level)
    (hst : ∀ x ∈ st.directives, x.level ≤ st.max_level) :
    (∀ x ∈ (s.extend ds).directives, Match.level x ≤ (s.extend ds).max_level)
    ∧ s.max_level ≤ (s.extend ds).max_level
    ∧ (∀ x ∈ (Statics.add st d).directives, x.level ≤ (Statics.add st d).max_level)
    ∧ st.max_level ≤ (Statics.add st d).max_level
    ∧ (DirectiveSet.default α).max_level = .off := by
  obtain ⟨h1, h2⟩ := extend_inv ds s hinv
  obtain ⟨h3, h4⟩ := statics_add_inv st d hst
  exact ⟨h1, h2, h3, h4, rfl⟩

/-- Witness for C3's amended statement at concrete sets. -/
theorem directive_set_max_level_upper_bound_witness :
    (∀ x ∈ ((DirectiveSet.default Directive).extend
        [(⟨none, none, [], .info⟩ : Directive)]).directives,
      Match.level x ≤ ((DirectiveSet.default Directive).extend
        [(⟨none, none, [], .info⟩ : Directive)]).max_level)
    ∧ (DirectiveSet.default Directive).max_level ≤
        ((DirectiveSet.default Directive).extend
          [(⟨none, none, [], .info⟩ : Directive)]).max_level
    ∧ (∀ x ∈ (Statics.add (DirectiveSet.default StaticDirective)
        ⟨some "t", .warn⟩).directives,
      x.level ≤ (Statics.add (DirectiveSet.default StaticDirective)
        ⟨some "t", .warn⟩).max_level)
    ∧ (DirectiveSet.default StaticDirective).max_level ≤
        (Statics.add (DirectiveSet.default StaticDirective) ⟨some "t", .warn⟩).max_level
    ∧ (DirectiveSet.default Directive).max_level = .off :=
  directive_set_max_level_upper_bound
    (DirectiveSet.default Directive) [⟨none, none, [], .info⟩]
    (DirectiveSet.default StaticDirective) ⟨some "t", .warn⟩
    (by intro x hx; cases hx) (by intro x hx; cases hx)

/-! ### C8 -/

theorem maxl_left (a b : LevelFilter) : a ≤ LevelFilter.maxl a b := by
  unfold LevelFilter.maxl
  by_cases h : a ≤ b
  · rw [if_pos h]
    exact h
  · rw [if_neg h]
    exact Nat.le_refl _

theorem maxl_right (a b : LevelFilter) : b ≤ LevelFilter.maxl a b := by
  unfold LevelFilter.maxl
  by_cases h : a ≤ b
  · rw [if_pos h]
    exact Nat.le_refl _
  · rw [if_neg h]
    exact Nat.le_of_not_le h

theorem maxl_cases (a b : LevelFilter) :
    LevelFilter.maxl a b = a ∨ LevelFilter.maxl a b = b := by
  unfold LevelFilter.maxl
  by_cases h : a ≤ b
  · rw [if_pos h]
    exact Or.inr rfl
  · rw [if_neg h]
    exact Or.inl rfl

theorem foldl_maxl_spec (l : List LevelFilter) :
    ∀ a : LevelFilter,
      (l.foldl LevelFilter.maxl a = a ∨ l.foldl LevelFilter.maxl a ∈ l)
      ∧ a ≤ l.foldl LevelFilter.maxl a
      ∧ ∀ x ∈ l, x ≤ l.foldl LevelFilter.maxl a := by
  induction l with
  | nil => exact fun a => ⟨Or.inl rfl, Nat.le_refl _, by simp⟩
  | cons b bs ih =>
    intro a
    have h := ih (LevelFilter.maxl a b)
    refine ⟨?_, ?_, ?_⟩
    · rcases h.1 with h1 | h1
      · rw [List.foldl_cons, h1]
        rcases maxl_cases a b with h2 | h2
        · exact Or.inl h2
        · exact Or.inr (by rw [h2]; exact List.mem_cons_self b bs)
      · exact Or.inr (List.mem_cons_of_mem b h1)
    · exact Nat.le_trans (maxl_left a b) h.2.1
    · intro x hx
      rcases List.mem_cons.mp hx with h1 | h1
      · subst h1
        exact Nat.le_trans (maxl_right a x) h.2.1
      · exact h.2.2 x h1

theorem levelMax?_none_iff (l : List LevelFilter) : levelMax? l = none ↔ l = [] := by
  cases l <;> simp [levelMax?]

theorem levelMax?_spec (l : List LevelFilter) (v : LevelFilter)
    (h : levelMax? l = some v) : v ∈ l ∧ ∀ x ∈ l, x ≤ v := by
  cases l with
  | nil => cases h
  | cons a rest =>
    simp only [levelMax?, Option.some.injEq] at h
    subst h
    have hs := foldl_maxl_spec rest a
    constructor
    · rcases hs.1 with h1 | h1
      · rw [h1]
        exact List.mem_cons_self a rest
      · exact List.mem_cons_of_mem a h1
    · intro x hx
      rcases List.mem_cons.mp hx with h1 | h1
      · subst h1
        exact hs.2.1
      · exact hs.2.2 x h1

theorem satisfied_levels_mem (s : SpanMatcher) (f : Field.SpanMatch)
    (hf : f ∈ s.field_matches) (hm : f.is_matched = true) :
    f.level ∈ s.field_matches.filterMap
      (fun g => if g.is_matched then some g.level else none) := by
  exact List.mem_filterMap.mpr ⟨f, hf, by rw [hm]; simp⟩

/-- C8: `SpanMatcher::level` returns the maximum level among the bound field
matchers that are currently satisfied — it is one of their levels and an upper
bound on all of them — and returns the inherited `base_level` when no field
matcher is currently satisfied. -/
theorem span_matcher_level_spec (s : SpanMatcher) :
    ((∀ f ∈ s.field_matches, f.is_matched = false) →
        SpanMatcher.level s = s.base_level)
    ∧ (∀ f ∈ s.field_matches, f.is_matched = true → f.level ≤ SpanMatcher.level s)
    ∧ ((∃ f ∈ s.field_matches, f.is_matched = true) →
        ∃ f ∈ s.field_matches, f.is_matched = true ∧ SpanMatcher.level s = f.level) := by
  refine ⟨?_, ?_, ?_⟩
  · intro hall
    unfold SpanMatcher.level
    have : s.field_matches.filterMap
        (fun g => if g.is_matched then some g.level else none) = [] := by
      rw [List.filterMap_eq_nil_iff]
      intro f hf
      rw [hall f hf]
      simp
    rw [this]
    rfl
  · intro f hf hm
    have hmem := satisfied_levels_mem s f hf hm
    unfold SpanMatcher.level
    rcases hmax : levelMax? (s.field_matches.filterMap
        (fun g => if g.is_matched then some g.level else none)) with _ | v
    · rw [levelMax?_none_iff] at hmax
      rw [hmax] at hmem
      cases hmem
    · rw [hmax]
      simp only [Option.getD_some]
      exact (levelMax?_spec _ _ hmax).2 f.level hmem
  · intro ⟨f, hf, hm⟩
    have hmem := satisfied_levels_mem s f hf hm
    unfold SpanMatcher.level
    rcases hmax : levelMax? (s.field_matches.filterMap
        (fun g => if g.is_matched then some g.level else none)) with _ | v
    · rw [levelMax?_none_iff] at hmax
      rw [hmax] at hmem
      cases hmem
    · rw [hmax]
      simp only [Option.getD_some]
      have hv := (levelMax?_spec _ _ hmax).1
      rcases List.mem_filterMap.mp hv with ⟨g, hg, hgv⟩
      by_cases hgm : g.is_matched
      · rw [if_pos hgm] at hgv
        injection hgv with hgv
        exact ⟨g, hg, hgm, hgv.symm⟩
      · rw [if_neg hgm] at hgv
        cases hgv

/-- Witness for C8 at a concrete span matcher. -/
theorem span_matcher_level_spec_witness :
    ∃ f ∈ (⟨[⟨true, LevelFilter.debug⟩], LevelFilter.info⟩ : SpanMatcher).field_matches,
      f.is_matched = true
      ∧ SpanMatcher.level ⟨[⟨true, LevelFilter.debug⟩], LevelFilter.info⟩ = f.level :=
  (span_matcher_level_spec ⟨[⟨true, LevelFilter.debug⟩], LevelFilter.info⟩).2.2
    ⟨⟨true, LevelFilter.debug⟩, by simp, rfl⟩

/-! ### C9 -/

/-- C9: a rule string in the target/span form of the grammar (the form in
which the level suffix is optional) that omits the `=LEVEL` suffix parses with
the level defaulting to ERROR; in particular parsing "[my_span{field=1}]"
yields span name "my_span", exactly one field predicate on the field named
`field`, and level ERROR. -/
theorem missing_level_defaults_to_error :
    (∀ (s : String) (tcap scap : Option (List Char)),
        isLevelWord s = false →
        matchBranch2 s.data = some (tcap, scap, Suffix.noEq) →
        ∃ d, Directive.from_str s = some d ∧ d.level = .error)
    ∧ Directive.from_str "[my_span{field=1}]" =
        some ⟨none, some "my_span", [⟨"field", some "1"⟩], .error⟩ := by
  constructor
  · intro s tcap scap hg hm
    unfold Directive.from_str
    rw [hg, hm]
    exact ⟨_, rfl, rfl⟩
  · decide

/-- Witness for C9's universally quantified part at a concrete rule string. -/
theorem missing_level_defaults_to_error_witness :
    ∃ d, Directive.from_str "my_target" = some d ∧ d.level = .error :=
  missing_level_defaults_to_error.1 "my_target" (some "my_target".data) none
    (by decide) (by decide)

end EnvFilter
